import Mathlib

/-!
Verification of the qwipo_backend recommendation core against its
natural-language specification.

The development shallowly embeds the Python source:

* `src/cache.py` — the `SimpleCache` class: two dictionaries `_cache`
  (key → value) and `_timestamps` (key → created/ttl record) are embedded
  as association lists over `String` keys; `time.time()` is embedded as an
  explicit rational clock argument passed to each operation that reads it.
* `src/recommendation_engine.py` — the CBF / CF / hybrid rankers.  SQL
  queries are embedded as pure functions over an explicit database value
  (a list of product rows in table order plus a list of purchase events).
  The floating-point cosine-similarity matrices produced by
  `sklearn.metrics.pairwise.cosine_similarity` are not representable
  exactly; they enter the embedding as rational-valued similarity
  parameters, and every theorem quantifies over them, so the results hold
  for whatever numeric matrix the library returns.  `np.argsort`,
  pandas `nlargest(keep = first)` and Python's stable `list.sort` are
  embedded with the stable `List.insertionSort`.
-/

attribute [local semireducible] Rat.add Rat.mul Rat.inv Rat.sub Rat.ofScientific

namespace Qwipo

/-! ## Cache model (src/cache.py) -/

/-- Record stored in `_timestamps`: creation time and time-to-live.
The source stores `created = time.time()` (a float, embedded as `ℚ`)
and `ttl : int` (embedded as `ℤ`, since Python ints are signed). -/
structure TsInfo where
  created : ℚ
  ttl : ℤ
  deriving DecidableEq, Repr

/-- Lookup in a Python dict embedded as an association list. -/
def dlookup {β : Type} (key : String) : List (String × β) → Option β
  | [] => none
  | e :: es => if e.1 = key then some e.2 else dlookup key es

/-- Python dict assignment `d[key] = v`: replace the value in place when the
key is present, append otherwise. -/
def dinsert {β : Type} (key : String) (v : β) : List (String × β) → List (String × β)
  | [] => [(key, v)]
  | e :: es => if e.1 = key then (key, v) :: es else e :: dinsert key v es

/-- Python `del d[key]` (guarded by `if key in d` in the source). -/
def derase {β : Type} (key : String) (d : List (String × β)) : List (String × β) :=
  d.filter (fun e => e.1 ≠ key)

/-- State of `SimpleCache`: the `_cache` and `_timestamps` dictionaries. -/
structure SimpleCache (β : Type) where
  cache : List (String × β)
  timestamps : List (String × TsInfo)
  deriving Repr

/-- The freshly constructed cache (`SimpleCache.__init__`). -/
def SimpleCache.empty {β : Type} : SimpleCache β := ⟨[], []⟩

/-- Embedding of `SimpleCache.delete`: removes the key from `_cache` and from
`_timestamps`, each guarded by its own membership test. -/
def SimpleCache.delete {β : Type} (c : SimpleCache β) (key : String) : SimpleCache β :=
  ⟨derase key c.cache, derase key c.timestamps⟩

/-- Embedding of `SimpleCache.get` at clock value `now`: returns the read
result together with the possibly mutated cache (an expired entry is deleted
on read).  Mirrors: if the key is in `_cache`, and `_timestamps` holds an
expiry record with `now - created > ttl`, delete the key and miss; otherwise
hit; a key absent from `_cache` misses. -/
def SimpleCache.get {β : Type} (c : SimpleCache β) (key : String) (now : ℚ) :
    Option β × SimpleCache β :=
  match dlookup key c.cache with
  | none => (none, c)
  | some v =>
    match dlookup key c.timestamps with
    | none => (some v, c)
    | some info =>
      if now - info.created > (info.ttl : ℚ) then (none, c.delete key)
      else (some v, c)

/-- Embedding of `SimpleCache.set` at clock value `now`: stores the value and
records `created = now`, `ttl`. -/
def SimpleCache.set {β : Type} (c : SimpleCache β) (key : String) (v : β) (ttl : ℤ)
    (now : ℚ) : SimpleCache β :=
  ⟨dinsert key v c.cache, dinsert key ⟨now, ttl⟩ c.timestamps⟩

/-- Embedding of `SimpleCache.clear`. -/
def SimpleCache.clearAll {β : Type} (_c : SimpleCache β) : SimpleCache β :=
  ⟨[], []⟩

/-- Embedding of `SimpleCache.cleanup_expired` at clock value `now`: collect
the keys whose entry is expired, then delete each. -/
def SimpleCache.cleanupExpired {β : Type} (c : SimpleCache β) (now : ℚ) : SimpleCache β :=
  let expired := (c.timestamps.filter
    (fun e => decide (now - e.2.created > (e.2.ttl : ℚ)))).map (fun e => e.1)
  expired.foldl (fun st k => st.delete k) c

/-- One observable operation on the cache, tagged with the clock value the
source would read from `time.time()` where relevant. -/
inductive CacheOp (β : Type) : Type where
  | get (key : String) (now : ℚ)
  | set (key : String) (v : β) (ttl : ℤ) (now : ℚ)
  | del (key : String)
  | clearAll
  | cleanup (now : ℚ)

/-- Apply one operation to the cache state (the value returned by `get` is
discarded; only the state evolution matters for the store invariant). -/
def runOp {β : Type} (c : SimpleCache β) : CacheOp β → SimpleCache β
  | .get key now => (c.get key now).2
  | .set key v ttl now => c.set key v ttl now
  | .del key => c.delete key
  | .clearAll => c.clearAll
  | .cleanup now => c.cleanupExpired now

/-- Run a finite sequence of cache operations from a starting state. -/
def runOps {β : Type} (c : SimpleCache β) (ops : List (CacheOp β)) : SimpleCache β :=
  ops.foldl runOp c

/-- Alignment invariant of the two dictionaries: a key is present in `_cache`
iff it is present in `_timestamps`. -/
def keysAligned {β : Type} (c : SimpleCache β) : Prop :=
  ∀ k : String, (dlookup k c.cache).isSome ↔ (dlookup k c.timestamps).isSome

/-! ## Data model (src/recommendation_engine.py, src/models.py)

Only fields the verified claims mention are embedded: the catalog id, the
active flag and the creation timestamp of a product; the buyer, product,
quantity and timestamp of a purchase event.  `db.products` carries the rows
in the order the store scans the table (SQLite: rowid order). -/

structure Product where
  id : Nat
  active : Bool
  createdAt : ℤ
  deriving DecidableEq, Repr

structure PurchaseEvent where
  userId : Nat
  productId : Nat
  quantity : ℚ
  purchasedAt : ℤ
  deriving DecidableEq, Repr

structure Db where
  products : List Product
  purchases : List PurchaseEvent
  deriving DecidableEq, Repr

/-- Embedding of `SELECT * FROM products WHERE id IN (ids_csv)`: the rows
whose id is listed, in table order — SQL `IN` imposes no ordering, so the
store returns them in scan order, not in the order of `ids`.  The source
feeds the result directly to `_format_products`, which keeps row order. -/
def fetchProductsByIds (db : Db) (ids : List Nat) : List Product :=
  db.products.filter (fun p => decide (p.id ∈ ids))

/-- Rows of `SELECT ... FROM products WHERE is_active = 1`, in table order. -/
def activeProducts (db : Db) : List Product :=
  db.products.filter (fun p => p.active)

/-- Value of `COUNT(ph.id)` for one product in `get_popular_products`
(a LEFT JOIN row count, zero when the product was never purchased). -/
def purchaseCount (db : Db) (p : Product) : Nat :=
  (db.purchases.filter (fun e => e.productId == p.id)).length

/-- Ordering of `get_popular_products`: `ORDER BY purchase_count DESC,
p.created_at DESC` as a total preorder (`popLe a b` means `a` may precede
`b`). -/
def popLe (db : Db) (a b : Product) : Prop :=
  purchaseCount db b < purchaseCount db a ∨
    (purchaseCount db a = purchaseCount db b ∧ b.createdAt ≤ a.createdAt)

instance (db : Db) : DecidableRel (popLe db) := fun a b =>
  inferInstanceAs (Decidable (purchaseCount db b < purchaseCount db a ∨
    (purchaseCount db a = purchaseCount db b ∧ b.createdAt ≤ a.createdAt)))

instance (db : Db) : IsTotal Product (popLe db) := by
  constructor
  intro a b
  unfold popLe
  rcases Nat.lt_trichotomy (purchaseCount db a) (purchaseCount db b) with h | h | h
  · exact Or.inr (Or.inl h)
  · rcases le_total a.createdAt b.createdAt with h2 | h2
    · exact Or.inr (Or.inr ⟨h.symm, h2⟩)
    · exact Or.inl (Or.inr ⟨h, h2⟩)
  · exact Or.inl (Or.inl h)

instance (db : Db) : IsTrans Product (popLe db) := by
  constructor
  intro a b c hab hbc
  unfold popLe at *
  rcases hab with h1 | ⟨h1, h1t⟩ <;> rcases hbc with h2 | ⟨h2, h2t⟩
  · exact Or.inl (h2.trans h1)
  · exact Or.inl (h2 ▸ h1)
  · exact Or.inl (h1 ▸ h2)
  · exact Or.inr ⟨h1.trans h2, h2t.trans h1t⟩

/-- Embedding of `get_popular_products`: active products ordered by purchase
count descending, catalog recency as tiebreak, truncated to `limit`. -/
def getPopularProducts (db : Db) (limit : Nat) : List Product :=
  ((activeProducts db).insertionSort (popLe db)).take limit

/-! ## Collaborative filtering (src/recommendation_engine.py 452-496)

The builder's SQL aggregates purchase history by (user, product) with summed
quantity; `pivot_table` turns the aggregate rows into the interaction matrix
whose columns are the sorted distinct product ids.  The item×item cosine
matrix computed by `cosine_similarity(pivot.T)` is floating point; it enters
the model as the parameter `sim : Nat → Nat → ℚ` indexed by product ids. -/

/-- One row of `SELECT user_id, product_id, SUM(quantity) ... GROUP BY
user_id, product_id`. -/
structure AggRow where
  userId : Nat
  productId : Nat
  qty : ℚ
  deriving DecidableEq, Repr

/-- Interaction-matrix cell for buyer `u` and product `p` (after GROUP BY
the (u, p) pair occurs at most once, so summing matching rows is exact). -/
def rowQty (rows : List AggRow) (u p : Nat) : ℚ :=
  ((rows.filter (fun r => r.userId == u && r.productId == p)).map (fun r => r.qty)).sum

/-- Columns of the pivot table: the distinct purchased product ids in
ascending order (pandas sorts the column axis). -/
def itemIdsR (rows : List AggRow) : List Nat :=
  ((rows.map (fun r => r.productId)).dedup).insertionSort (fun a b => a ≤ b)

/-- Membership test `user_id in pivot.index`. -/
def userInR (rows : List AggRow) (u : Nat) : Bool :=
  rows.any (fun r => r.userId == u)

/-- Raw CF score of item `p` for buyer `u`: the dot product
`user_vector @ item_sim` at column `p`. -/
def cfScoreR (rows : List AggRow) (sim : Nat → Nat → ℚ) (u p : Nat) : ℚ :=
  ((itemIdsR rows).map (fun q => rowQty rows u q * sim q p)).sum

/-- Score after the repurchase mask `scores[already_idxs] = -np.inf`:
`none` stands for negative infinity (the item was already purchased). -/
def maskedScoreR (rows : List AggRow) (sim : Nat → Nat → ℚ) (u p : Nat) : Option ℚ :=
  if 0 < rowQty rows u p then none else some (cfScoreR rows sim u p)

/-- Order on masked scores: negative infinity below every finite score. -/
def optLe : Option ℚ → Option ℚ → Prop
  | none, _ => True
  | some _, none => False
  | some a, some b => a ≤ b

instance : ∀ a b : Option ℚ, Decidable (optLe a b)
  | none, _ => isTrue trivial
  | some _, none => isFalse id
  | some a, some b => inferInstanceAs (Decidable (a ≤ b))

/-- Ascending comparison of two item ids by masked score, the order
`np.argsort(scores)` sorts by. -/
def ascByScore (rows : List AggRow) (sim : Nat → Nat → ℚ) (u : Nat) (p q : Nat) : Prop :=
  optLe (maskedScoreR rows sim u p) (maskedScoreR rows sim u q)

instance (rows : List AggRow) (sim : Nat → Nat → ℚ) (u : Nat) :
    DecidableRel (ascByScore rows sim u) := fun p q =>
  inferInstanceAs (Decidable (optLe (maskedScoreR rows sim u p) (maskedScoreR rows sim u q)))

/-- Ranked id list of `get_collaborative_recommendations`:
`top_idx = np.argsort(scores)[::-1][:limit]` followed by
`[item_ids[i] for i in top_idx if np.isfinite(scores[i])]`. -/
def collabRecIdsR (rows : List AggRow) (sim : Nat → Nat → ℚ) (u limit : Nat) : List Nat :=
  ((((itemIdsR rows).insertionSort (ascByScore rows sim u)).reverse.take limit).filter
    (fun p => (maskedScoreR rows sim u p).isSome))

/-- GROUP BY embedding: one aggregate row per distinct (user, product) pair
of the purchase history, with summed quantity. -/
def aggQty (evs : List PurchaseEvent) (u p : Nat) : ℚ :=
  ((evs.filter (fun e => e.userId == u && e.productId == p)).map (fun e => e.quantity)).sum

def aggPairs (evs : List PurchaseEvent) : List AggRow :=
  ((evs.map (fun e => (e.userId, e.productId))).dedup).map
    (fun pr => ⟨pr.1, pr.2, aggQty evs pr.1 pr.2⟩)

/-- Embedding of `get_collaborative_recommendations`: popularity fallback
when the build returns no artifact (no purchase rows), when the buyer has no
matrix row, or when no finite-score candidate survives; otherwise hydrate
the ranked ids through the id-lookup query. -/
def getCollaborativeRecommendations (db : Db) (sim : Nat → Nat → ℚ) (u limit : Nat) :
    List Product :=
  let rows := aggPairs db.purchases
  if rows.isEmpty then getPopularProducts db limit
  else if !(userInR rows u) then getPopularProducts db limit
  else
    let recIds := collabRecIdsR rows sim u limit
    if recIds.isEmpty then getPopularProducts db limit
    else fetchProductsByIds db recIds

/-! ## Content-based filtering (src/recommendation_engine.py 398-447)

The TF-IDF matrix and `cosine_similarity(matrix[idx], matrix)` are floating
point; the cosine of the anchor row against another product's row enters the
model as the parameter `tsim : Nat → Nat → ℚ` (anchor id, other id). -/

/-- Comparison used by `nlargest(limit, score)` with its default
keep-first tie policy: a stable descending sort by score. -/
def cbfDesc (tsim : Nat → Nat → ℚ) (pid : Nat) (a b : Product) : Prop :=
  tsim pid b.id ≤ tsim pid a.id

instance (tsim : Nat → Nat → ℚ) (pid : Nat) : DecidableRel (cbfDesc tsim pid) :=
  fun a b => inferInstanceAs (Decidable (tsim pid b.id ≤ tsim pid a.id))

/-- Ranked ids of the CBF ranker over the active rows `rows` (the dataframe
built by `_build_cbf_matrix`, in query order): empty when the anchor has no
row, otherwise the anchor-free rows stably sorted by similarity descending,
truncated to `limit`. -/
def cbfTopIdsRows (rows : List Product) (tsim : Nat → Nat → ℚ) (pid limit : Nat) :
    List Nat :=
  if rows.any (fun p => p.id == pid) then
    (((rows.filter (fun p => p.id ≠ pid)).insertionSort (cbfDesc tsim pid)).take limit).map
      (fun p => p.id)
  else []

def cbfTopIds (db : Db) (tsim : Nat → Nat → ℚ) (pid limit : Nat) : List Nat :=
  cbfTopIdsRows (activeProducts db) tsim pid limit

/-- Embedding of `get_content_based_recommendations`: empty on missing
artifact or unknown anchor, otherwise the ranked ids hydrated through the
id-lookup query. -/
def getContentBasedRecommendations (db : Db) (tsim : Nat → Nat → ℚ) (pid limit : Nat) :
    List Product :=
  let top := cbfTopIds db tsim pid limit
  if top.isEmpty then [] else fetchProductsByIds db top

/-- Ranking the specification describes for 4.1 `similar_to`: the `limit`
highest-similarity ids with ties broken by catalog id ascending.  Written
from the spec's words, for comparison with `cbfTopIdsRows`. -/
def cbfLex (tsim : Nat → Nat → ℚ) (pid : Nat) (a b : Product) : Prop :=
  tsim pid b.id < tsim pid a.id ∨ (tsim pid a.id = tsim pid b.id ∧ a.id ≤ b.id)

instance (tsim : Nat → Nat → ℚ) (pid : Nat) : DecidableRel (cbfLex tsim pid) :=
  fun a b => inferInstanceAs (Decidable (tsim pid b.id < tsim pid a.id ∨
    (tsim pid a.id = tsim pid b.id ∧ a.id ≤ b.id)))

def cbfTopIdsSpecRows (rows : List Product) (tsim : Nat → Nat → ℚ) (pid limit : Nat) :
    List Nat :=
  if rows.any (fun p => p.id == pid) then
    (((rows.filter (fun p => p.id ≠ pid)).insertionSort (cbfLex tsim pid)).take limit).map
      (fun p => p.id)
  else []

def cbfTopIdsSpec (db : Db) (tsim : Nat → Nat → ℚ) (pid limit : Nat) : List Nat :=
  cbfTopIdsSpecRows (activeProducts db) tsim pid limit

/-! ## Hybrid blending (src/recommendation_engine.py 501-533)

The union `all_ids = set(cbf_scores) | set(cf_rank)` is an unordered Python
set; the order in which the source iterates it is implementation defined, so
it enters the model as the explicit enumeration parameter `enum`, constrained
in the theorems to be a duplicate-free enumeration of the union. -/

/-- Dict `cf_rank`: product id of the i-th collaborative candidate mapped to
`(len(cf_list) - i) / max(1, len(cf_list))`. -/
def cfRankList (cfList : List Product) : List (Nat × ℚ) :=
  cfList.enum.map
    (fun e => (e.2.id, ((cfList.length : ℚ) - (e.1 : ℚ)) / max 1 (cfList.length : ℚ)))

/-- Lookup in a Python dict keyed by product ids. -/
def nlookup (k : Nat) : List (Nat × ℚ) → Option ℚ
  | [] => none
  | e :: es => if e.1 = k then some e.2 else nlookup k es

/-- Python `d.get(k, 0.0)` on an embedded dict. -/
def lookupD (l : List (Nat × ℚ)) (k : Nat) : ℚ :=
  (nlookup k l).getD 0

/-- Python `d[k] = max(d.get(k, 0.0), v)`: replace in place when present,
append otherwise. -/
def updMax (acc : List (Nat × ℚ)) (k : Nat) (v : ℚ) : List (Nat × ℚ) :=
  match nlookup k acc with
  | some old => acc.map (fun e => if e.1 = k then (e.1, max old v) else e)
  | none => acc ++ [(k, max 0 v)]

/-- Dict `cbf_scores` built by the seed loop: for each seed's candidate list,
for each (rank, product), store the running maximum of `(50 - rank) / 50`. -/
def cbfScoresList (seedLists : List (List Nat)) : List (Nat × ℚ) :=
  seedLists.foldl
    (fun acc ids =>
      ids.enum.foldl (fun acc2 e => updMax acc2 e.2 ((50 - (e.1 : ℚ)) / 50)) acc)
    []

/-- Ordering of `blended.sort(key=lambda x: x[1], reverse=True)`: a stable
descending sort on the score component. -/
def blendLe (a b : Nat × ℚ) : Prop := b.2 ≤ a.2

instance : DecidableRel blendLe := fun a b => inferInstanceAs (Decidable (b.2 ≤ a.2))

instance : IsTotal (Nat × ℚ) blendLe :=
  ⟨fun a b => (le_total b.2 a.2).elim Or.inl Or.inr⟩

instance : IsTrans (Nat × ℚ) blendLe :=
  ⟨fun _ _ _ hab hbc => le_trans hbc hab⟩

/-- Blend-sort-truncate core shared by the pure and the exception-aware
models: score every id of the union, sort descending by blended score,
truncate to `limit`, keep the ids. -/
def hybridRankedIdsCore (cfR cbfS : List (Nat × ℚ)) (alpha : ℚ) (limit : Nat)
    (enum : List Nat) : List Nat :=
  let blended := enum.map
    (fun pid => (pid, alpha * lookupD cfR pid + (1 - alpha) * lookupD cbfS pid))
  ((blended.insertionSort blendLe).take limit).map (fun e => e.1)

/-- Collaborative candidate list fetched by the hybrid ranker
(`get_collaborative_recommendations(user_id, limit=50)`). -/
def hybridCfList (db : Db) (sim : Nat → Nat → ℚ) (u : Nat) : List Product :=
  getCollaborativeRecommendations db sim u 50

/-- Dict `cf_rank` of the hybrid ranker (empty when no CF candidates). -/
def hybridCfRank (db : Db) (sim : Nat → Nat → ℚ) (u : Nat) : List (Nat × ℚ) :=
  let l := hybridCfList db sim u
  if l.isEmpty then [] else cfRankList l

/-- Seed products: `SELECT product_id FROM purchase_history WHERE user_id =
:uid ORDER BY purchased_at DESC LIMIT 5` (most recent first, duplicates not
collapsed by the source). -/
def recentLe (a b : PurchaseEvent) : Prop := b.purchasedAt ≤ a.purchasedAt

instance : DecidableRel recentLe := fun a b =>
  inferInstanceAs (Decidable (b.purchasedAt ≤ a.purchasedAt))

def recentPurchaseSeeds (evs : List PurchaseEvent) (u : Nat) : List Nat :=
  (((evs.filter (fun e => e.userId == u)).insertionSort recentLe).take 5).map
    (fun e => e.productId)

/-- Per-seed CBF candidate id lists fetched by the hybrid ranker
(`get_content_based_recommendations(pid, limit=50)` for each seed). -/
def hybridSeedLists (db : Db) (tsim : Nat → Nat → ℚ) (u : Nat) : List (List Nat) :=
  (recentPurchaseSeeds db.purchases u).map
    (fun pid => (getContentBasedRecommendations db tsim pid 50).map (fun p => p.id))

def hybridCbfScores (db : Db) (tsim : Nat → Nat → ℚ) (u : Nat) : List (Nat × ℚ) :=
  cbfScoresList (hybridSeedLists db tsim u)

/-- Ranked ids `rec_ids` computed by `get_hybrid_recommendations` before
hydration. -/
def hybridRecIds (db : Db) (sim tsim : Nat → Nat → ℚ) (u limit : Nat) (alpha : ℚ)
    (enum : List Nat) : List Nat :=
  hybridRankedIdsCore (hybridCfRank db sim u) (hybridCbfScores db tsim u) alpha limit enum

/-- Embedding of `get_hybrid_recommendations`: popularity fallback on an
empty ranking, otherwise the ranked ids hydrated through the id-lookup
query. -/
def getHybridRecommendations (db : Db) (sim tsim : Nat → Nat → ℚ) (u limit : Nat)
    (alpha : ℚ) (enum : List Nat) : List Product :=
  let recIds := hybridRecIds db sim tsim u limit alpha enum
  if recIds.isEmpty then getPopularProducts db limit
  else fetchProductsByIds db recIds

/-- Condition on the enumeration parameter: it lists, without duplicates,
exactly the union of the two dicts' key sets. -/
def enumeratesUnion (db : Db) (sim tsim : Nat → Nat → ℚ) (u : Nat) (enum : List Nat) :
    Prop :=
  enum.Nodup ∧
    (∀ x ∈ enum, x ∈ (hybridCfRank db sim u).map (fun e => e.1) ∨
                 x ∈ (hybridCbfScores db tsim u).map (fun e => e.1)) ∧
    (∀ x ∈ (hybridCfRank db sim u).map (fun e => e.1), x ∈ enum) ∧
    (∀ x ∈ (hybridCbfScores db tsim u).map (fun e => e.1), x ∈ enum)

/-! ## Spec-side scoring formulas for the hybrid blend (claim C1)

Written from the specification's words (4.3 steps 1-3), for comparison with
the dict-based computation of the source. -/

/-- CF rank score of the claim: `(N - rank_index) / N` for a candidate at
0-based position `rank_index` of the `N` returned CF candidates, `0` for an
id outside the candidate list. -/
def specCfScore (cfList : List Product) (pid : Nat) : ℚ :=
  let ids := cfList.map (fun p => p.id)
  if pid ∈ ids then ((cfList.length : ℚ) - (ids.indexOf pid : ℚ)) / (cfList.length : ℚ)
  else 0

/-- All normalized positions `(50 - rank_index) / 50` at which `pid` occurs
across the per-seed candidate lists. -/
def occValues (seedLists : List (List Nat)) (pid : Nat) : List ℚ :=
  (seedLists.map (fun ids =>
    ids.enum.filterMap
      (fun e => if e.2 = pid then some ((50 - (e.1 : ℚ)) / 50) else none))).flatten

/-- CBF score of the claim: the maximum over seeds of the normalized
position, `0` for an id no seed produced. -/
def specCbfScore (seedLists : List (List Nat)) (pid : Nat) : ℚ :=
  (occValues seedLists pid).foldl max 0

/-- Blended score of the claim: `alpha * cf_score + (1 - alpha) * cbf_score`
with a missing score treated as 0. -/
def specBlendedScore (db : Db) (sim tsim : Nat → Nat → ℚ) (u : Nat) (alpha : ℚ)
    (pid : Nat) : ℚ :=
  alpha * specCfScore (hybridCfList db sim u) pid +
    (1 - alpha) * specCbfScore (hybridSeedLists db tsim u) pid

/-! ## Data-access failure model (claim C2)

The engine methods at lines 398-533 contain no try/except; the embedding
makes each SQL round trip an `Except`-valued field of the store, so an
exception raised by `self.db.execute` is an `Except.error` that the monadic
translation of straight-line Python propagates.  `get_popular_products`
keeps its own try/except and degrades to `[]`.  The builders are modelled at
a cold cache (the queries only run on a cache miss). -/

structure DbE where
  aggregateQuery : Except String (List AggRow)
  popularQuery : Except String (List Product)
  productsByIds : List Nat → Except String (List Product)
  recentQuery : Nat → Except String (List Nat)
  activeQuery : Except String (List Product)

/-- Exception-aware `get_popular_products`: the only engine method among
these with a try/except, returning `[]` on a store failure. -/
def getPopularProductsE (db : DbE) (limit : Nat) : List Product :=
  match db.popularQuery with
  | .error _ => []
  | .ok rows => rows.take limit

/-- Exception-aware `get_collaborative_recommendations` (with the inlined
`_build_cf_item_similarity`): no try/except in the source, so a failing
aggregate or hydration query propagates. -/
def getCollaborativeRecommendationsE (db : DbE) (sim : Nat → Nat → ℚ) (u limit : Nat) :
    Except String (List Product) := do
  let rows ← db.aggregateQuery
  if rows.isEmpty then return getPopularProductsE db limit
  else if !(userInR rows u) then return getPopularProductsE db limit
  else
    let recIds := collabRecIdsR rows sim u limit
    if recIds.isEmpty then return getPopularProductsE db limit
    else db.productsByIds recIds

/-- Exception-aware `get_content_based_recommendations` (with the inlined
`_build_cbf_matrix`): no try/except, so a failing corpus or hydration query
propagates. -/
def getContentBasedRecommendationsE (db : DbE) (tsim : Nat → Nat → ℚ) (pid limit : Nat) :
    Except String (List Product) := do
  let rows ← db.activeQuery
  let top := cbfTopIdsRows rows tsim pid limit
  if top.isEmpty then return []
  else db.productsByIds top

/-- Exception-aware `get_hybrid_recommendations`: no try/except, so failures
of the collaborative call, the seed query, any per-seed CBF call or the final
hydration query all propagate. -/
def getHybridRecommendationsE (db : DbE) (sim tsim : Nat → Nat → ℚ) (u limit : Nat)
    (alpha : ℚ) (enum : List Nat) : Except String (List Product) := do
  let cfList ← getCollaborativeRecommendationsE db sim u 50
  let cfR := if cfList.isEmpty then [] else cfRankList cfList
  let seeds ← db.recentQuery u
  let seedProducts ← seeds.mapM (fun pid => getContentBasedRecommendationsE db tsim pid 50)
  let cbfS := cbfScoresList (seedProducts.map (fun l => l.map (fun p => p.id)))
  let recIds := hybridRankedIdsCore cfR cbfS alpha limit enum
  if recIds.isEmpty then return getPopularProductsE db limit
  else db.productsByIds recIds

/-! ## Concrete instances used by counterexamples, failing-input evaluations
and witnesses -/

/-- Similarity parameter that is identically zero (any value works where the
similarity is irrelevant). -/
def zeroSim : Nat → Nat → ℚ := fun _ _ => 0

/-- Catalog rows for the hydration-order scenario: two inactive products, in
ascending-id table order.  Inactive keeps the CBF corpus empty, while the
`WHERE id IN` hydration query does not filter on the active flag. -/
def exP1 : Product := ⟨1, false, 0⟩

def exP2 : Product := ⟨2, false, 0⟩

/-- Store for the hydration-order scenario: buyer 10 purchased product 3;
products 1 and 2 were purchased by other buyers, so the interaction matrix
has columns 1, 2, 3. -/
def exDb9 : Db :=
  ⟨[exP1, exP2], [⟨10, 3, 1, 100⟩, ⟨20, 1, 1, 50⟩, ⟨21, 2, 1, 60⟩]⟩

/-- Item similarity for the hydration-order scenario: product 3 is much more
similar to product 2 than to product 1, so the CF ranking is [2, 1]. -/
def exSim9 : Nat → Nat → ℚ := fun q p =>
  if q == 3 && p == 1 then 1 / 10 else if q == 3 && p == 2 then 9 / 10 else 0

/-- Store for the repurchase scenario: a single active product, purchased by
buyer 5 — every CF candidate is masked, so the ranked id list is empty. -/
def exQ1 : Product := ⟨1, true, 0⟩

def exDb4 : Db := ⟨[exQ1], [⟨5, 1, 1, 0⟩]⟩

/-- Active catalog rows for the CBF tie scenario. -/
def exR1 : Product := ⟨1, true, 0⟩

def exR2 : Product := ⟨2, true, 0⟩

def exR3 : Product := ⟨3, true, 0⟩

/-- Store whose product table is NOT in ascending-id order (row for id 3
precedes the row for id 2). -/
def exDb8 : Db := ⟨[exR1, exR3, exR2], []⟩

/-- Store with the same rows in ascending-id order. -/
def exDb8w : Db := ⟨[exR1, exR2, exR3], []⟩

/-- Text similarity giving products 2 and 3 the same cosine to anchor 1. -/
def exTsim8 : Nat → Nat → ℚ := fun a b =>
  if a == 1 && b == 1 then 1 else if a == 1 then 1 / 2 else 0

/-- Store whose purchase-history aggregate query fails (the database raises
during `_build_cf_item_similarity`); every other query succeeds. -/
def exDbE : DbE :=
  ⟨.error "db down", .ok [exQ1], fun _ => .ok [], fun _ => .ok [], .ok []⟩


/-! ## Lemmas about the embedded dictionaries -/

theorem dlookup_dinsert_self {β : Type} (k : String) (v : β) (d : List (String × β)) :
    dlookup k (dinsert k v d) = some v := by
  induction d with
  | nil => simp [dinsert, dlookup]
  | cons e es ih =>
    by_cases h : e.1 = k
    · simp [dinsert, dlookup, h]
    · simp [dinsert, dlookup, h, ih]

theorem dlookup_dinsert_ne {β : Type} {k' k : String} (h : k' ≠ k) (v : β)
    (d : List (String × β)) : dlookup k' (dinsert k v d) = dlookup k' d := by
  have hk : ¬ (k = k') := fun hh => h hh.symm
  induction d with
  | nil => simp [dinsert, dlookup, hk]
  | cons e es ih =>
    by_cases he : e.1 = k
    · have he' : ¬ (e.1 = k') := fun hh => hk (he.symm.trans hh)
      rw [dinsert, if_pos he]
      rw [dlookup, if_neg hk, dlookup, if_neg he']
    · rw [dinsert, if_neg he]
      rw [dlookup, dlookup, ih]

theorem dlookup_derase_self {β : Type} (k : String) (d : List (String × β)) :
    dlookup k (derase k d) = none := by
  induction d with
  | nil => rfl
  | cons e es ih =>
    rw [derase]
    simp only [List.filter_cons]
    by_cases h : e.1 = k
    · have hp : decide (e.1 ≠ k) = false := by simp [h]
      rw [hp, if_neg (by decide : ¬ ((false : Bool) = true))]
      exact ih
    · have hp : decide (e.1 ≠ k) = true := by simp [h]
      rw [hp, if_pos (rfl : (true : Bool) = true)]
      rw [dlookup, if_neg h]
      exact ih

theorem dlookup_derase_ne {β : Type} {k' k : String} (h : k' ≠ k)
    (d : List (String × β)) : dlookup k' (derase k d) = dlookup k' d := by
  induction d with
  | nil => rfl
  | cons e es ih =>
    rw [derase]
    simp only [List.filter_cons]
    by_cases he : e.1 = k
    · have hp : decide (e.1 ≠ k) = false := by simp [he]
      rw [hp, if_neg (by decide : ¬ ((false : Bool) = true))]
      have he' : ¬ (e.1 = k') := fun hh => h (hh.symm.trans he)
      rw [dlookup, if_neg he']
      exact ih
    · have hp : decide (e.1 ≠ k) = true := by simp [he]
      rw [hp, if_pos (rfl : (true : Bool) = true)]
      rw [dlookup, dlookup]
      by_cases he' : e.1 = k'
      · rw [if_pos he', if_pos he']
      · rw [if_neg he', if_neg he']
        exact ih

/-! ## Cache invariant lemmas (claim C10) -/

theorem keysAligned_empty {β : Type} : keysAligned (SimpleCache.empty (β := β)) := by
  intro k
  simp [SimpleCache.empty, dlookup]

theorem keysAligned_delete {β : Type} {c : SimpleCache β} (h : keysAligned c)
    (k : String) : keysAligned (c.delete k) := by
  intro k'
  by_cases hk : k' = k
  · subst hk
    simp [SimpleCache.delete, dlookup_derase_self]
  · simp only [SimpleCache.delete, dlookup_derase_ne hk]
    exact h k'

theorem keysAligned_set {β : Type} {c : SimpleCache β} (h : keysAligned c)
    (k : String) (v : β) (ttl : ℤ) (now : ℚ) : keysAligned (c.set k v ttl now) := by
  intro k'
  by_cases hk : k' = k
  · subst hk
    simp [SimpleCache.set, dlookup_dinsert_self]
  · simp only [SimpleCache.set, dlookup_dinsert_ne hk]
    exact h k'

theorem keysAligned_get {β : Type} {c : SimpleCache β} (h : keysAligned c)
    (k : String) (now : ℚ) : keysAligned ((c.get k now).2) := by
  unfold SimpleCache.get
  cases h1 : dlookup k c.cache with
  | none => exact h
  | some v =>
    cases h2 : dlookup k c.timestamps with
    | none => exact h
    | some info =>
      by_cases h3 : now - info.created > (info.ttl : ℚ)
      · simp only [if_pos h3]
        exact keysAligned_delete h k
      · simp only [if_neg h3]
        exact h

theorem keysAligned_foldl_delete {β : Type} (ks : List String) {c : SimpleCache β}
    (h : keysAligned c) : keysAligned (ks.foldl (fun st k => st.delete k) c) := by
  induction ks generalizing c with
  | nil => exact h
  | cons k ks ih => exact ih (keysAligned_delete h k)

theorem keysAligned_cleanup {β : Type} {c : SimpleCache β} (h : keysAligned c)
    (now : ℚ) : keysAligned (c.cleanupExpired now) :=
  keysAligned_foldl_delete _ h

theorem keysAligned_runOp {β : Type} {c : SimpleCache β} (h : keysAligned c)
    (op : CacheOp β) : keysAligned (runOp c op) := by
  cases op with
  | get k now => exact keysAligned_get h k now
  | set k v ttl now => exact keysAligned_set h k v ttl now
  | del k => exact keysAligned_delete h k
  | clearAll => exact keysAligned_empty
  | cleanup now => exact keysAligned_cleanup h now

theorem keysAligned_runOps {β : Type} (ops : List (CacheOp β)) {c : SimpleCache β}
    (h : keysAligned c) : keysAligned (runOps c ops) := by
  induction ops generalizing c with
  | nil => exact h
  | cons op ops ih => exact ih (keysAligned_runOp h op)

/-- Claim C10: for every finite sequence of cache operations starting from
the empty cache, the key set of the value store `_cache` equals the key set
of the expiry-metadata store `_timestamps`, so no stored value can bypass
the expiry check in `get`. -/
theorem claim_C10 {β : Type} (ops : List (CacheOp β)) :
    keysAligned (runOps (SimpleCache.empty (β := β)) ops) :=
  keysAligned_runOps ops keysAligned_empty

/-! ## Claim C6: cache round trip and read-triggered expiry -/

/-- Counterexample to claim C6 as stated: the claim quantifies over every
ttl, but `ttl` is a Python `int` and may be negative; with `ttl = -1` the
expiry test `now - created > ttl` already holds at the moment of the `set`,
so the immediate `get` misses instead of returning the stored value. -/
theorem claim_C6_counterexample :
    (((SimpleCache.empty (β := Nat)).set "k" 0 (-1) 0).get "k" 0).1 = none ∧
      (((SimpleCache.empty (β := Nat)).set "k" 0 (-1) 0).get "k" 0).1 ≠ some 0 := by
  exact ⟨by decide, by decide⟩

/-- Claim C6 (amended to nonnegative ttl): after `set(k, v, ttl)` at time
`now`, a `get(k)` at the same time returns `v`; a `get(k)` at any time `t`
strictly after `now + ttl` misses and evicts the entry from both stores
(not merely hides it), so every subsequent `get(k)` with no intervening
`set` also misses. -/
theorem claim_C6 {β : Type} (c : SimpleCache β) (k : String) (v : β) (ttl : ℤ)
    (now t : ℚ) (httl : 0 ≤ ttl) (hexp : now + (ttl : ℚ) < t) :
    (((c.set k v ttl now).get k now).1 = some v) ∧
    (((c.set k v ttl now).get k t).1 = none) ∧
    (dlookup k (((c.set k v ttl now).get k t).2).cache = none) ∧
    (dlookup k (((c.set k v ttl now).get k t).2).timestamps = none) ∧
    (∀ t2 : ℚ, ((((c.set k v ttl now).get k t).2).get k t2).1 = none) := by
  have hc : dlookup k (c.set k v ttl now).cache = some v := dlookup_dinsert_self k v c.cache
  have ht : dlookup k (c.set k v ttl now).timestamps = some ⟨now, ttl⟩ :=
    dlookup_dinsert_self k _ c.timestamps
  have hfresh : ¬ (now - (⟨now, ttl⟩ : TsInfo).created > ((⟨now, ttl⟩ : TsInfo).ttl : ℚ)) := by
    simp only [not_lt]
    have : (0 : ℚ) ≤ (ttl : ℚ) := by exact_mod_cast httl
    linarith
  have hstale : t - (⟨now, ttl⟩ : TsInfo).created > ((⟨now, ttl⟩ : TsInfo).ttl : ℚ) := by
    simp only [gt_iff_lt]
    linarith
  have hget_t : (c.set k v ttl now).get k t = (none, (c.set k v ttl now).delete k) := by
    unfold SimpleCache.get
    rw [hc, ht]
    simp only [if_pos hstale]
  refine ⟨?_, ?_, ?_, ?_, ?_⟩
  · unfold SimpleCache.get
    rw [hc, ht]
    simp only [if_neg hfresh]
  · rw [hget_t]
  · rw [hget_t]
    exact dlookup_derase_self k _
  · rw [hget_t]
    exact dlookup_derase_self k _
  · intro t2
    rw [hget_t]
    show (((c.set k v ttl now).delete k).get k t2).1 = none
    unfold SimpleCache.get
    rw [show dlookup k ((c.set k v ttl now).delete k).cache = none from dlookup_derase_self k _]

/-- Witness for C6 at a concrete instance: key "a", value 5, ttl 60 set at
time 0, expired read at time 61. -/
theorem claim_C6_witness :
    ((((SimpleCache.empty (β := Nat)).set "a" 5 60 0).get "a" 0).1 = some 5) ∧
    ((((SimpleCache.empty (β := Nat)).set "a" 5 60 0).get "a" 61).1 = none) ∧
    (dlookup "a" ((((SimpleCache.empty (β := Nat)).set "a" 5 60 0).get "a" 61).2).cache = none) ∧
    (dlookup "a" ((((SimpleCache.empty (β := Nat)).set "a" 5 60 0).get "a" 61).2).timestamps = none) ∧
    (∀ t2 : ℚ, (((((SimpleCache.empty (β := Nat)).set "a" 5 60 0).get "a" 61).2).get "a" t2).1 = none) :=
  claim_C6 (SimpleCache.empty (β := Nat)) "a" 5 60 0 61 (by decide) (by norm_num)

/-! ## Claim C2: data-access failures are NOT caught by the CF/hybrid path

The source of `_build_cf_item_similarity`, `get_collaborative_recommendations`
and `get_hybrid_recommendations` contains no try/except (unlike every legacy
engine method and unlike `get_popular_products`), so a database exception
raised by the aggregate query propagates to the caller instead of degrading
to the popularity fallback. -/

/-- Failing-input evaluation for C2: with the purchase-history aggregate
query failing and every other query fine, `get_collaborative_recommendations`
and `get_hybrid_recommendations` propagate the error; the popularity
fallback the claim promises was available (third conjunct) but is never
reached. -/
theorem claim_C2 :
    getCollaborativeRecommendationsE exDbE zeroSim 1 10 = .error "db down" ∧
    getHybridRecommendationsE exDbE zeroSim zeroSim 1 10 (6 / 10) [] = .error "db down" ∧
    getPopularProductsE exDbE 10 = [exQ1] :=
  ⟨rfl, rfl, rfl⟩

/-! ## Claim C3: hydration does not preserve rank order

`_format_products` keeps the row order of `SELECT * FROM products WHERE id
IN (...)`, which is the store's scan order, not the order of the ranked
ids. -/

/-- Failing-input evaluation for C3: the collaborative ranking for buyer 10
is [2, 1], yet the hydrated sequence returned to the caller lists product 1
before product 2 (table order), losing the rank order. -/
theorem claim_C3 :
    collabRecIdsR (aggPairs exDb9.purchases) exSim9 10 2 = [2, 1] ∧
    (getCollaborativeRecommendations exDb9 exSim9 10 2).map (fun p => p.id) = [1, 2] :=
  ⟨by decide, by decide⟩

/-! ## Claim C9: hybrid with alpha = 1 versus collaborative -/

/-- Failing-input evaluation for C9: for buyer 10 with limit 1 and
alpha = 1, the collaborative ranking is [2] but the hybrid ranking is [1]
(for either iteration order of the union set): the hybrid ranker derives CF
rank scores from the position of each candidate in collaborative's hydrated
output, which is in table order rather than rank order. -/
theorem claim_C9 :
    (getHybridRecommendations exDb9 exSim9 zeroSim 10 1 1 [1, 2]).map (fun p => p.id) = [1] ∧
    (getHybridRecommendations exDb9 exSim9 zeroSim 10 1 1 [2, 1]).map (fun p => p.id) = [1] ∧
    (getCollaborativeRecommendations exDb9 exSim9 10 1).map (fun p => p.id) = [2] :=
  ⟨by decide, by decide, by decide⟩

/-! ## Aggregation lemmas relating the pivot rows to the raw purchase
events (claim C4) -/

theorem aggPairs_eq_nil {evs : List PurchaseEvent} (h : aggPairs evs = []) : evs = [] := by
  unfold aggPairs at h
  rw [List.map_eq_nil_iff, List.dedup_eq_nil, List.map_eq_nil_iff] at h
  exact h

theorem aggQty_eq_zero_of_no_user {evs : List PurchaseEvent} {u : Nat}
    (h : ∀ e ∈ evs, e.userId ≠ u) (p : Nat) : aggQty evs u p = 0 := by
  unfold aggQty
  have : evs.filter (fun e => e.userId == u && e.productId == p) = [] := by
    rw [List.filter_eq_nil_iff]
    intro e he
    simp only [Bool.and_eq_true, beq_iff_eq, not_and]
    intro hu
    exact absurd hu (h e he)
  rw [this]
  rfl

theorem no_user_events_of_userInR_ne {evs : List PurchaseEvent} {u : Nat}
    (h : userInR (aggPairs evs) u ≠ true) : ∀ e ∈ evs, e.userId ≠ u := by
  intro e he hu
  apply h
  unfold userInR
  rw [List.any_eq_true]
  refine ⟨⟨u, e.productId, aggQty evs u e.productId⟩, ?_, by simp⟩
  unfold aggPairs
  have hmem : (u, e.productId) ∈ (evs.map (fun e => (e.userId, e.productId))).dedup := by
    rw [List.mem_dedup]
    exact hu ▸ List.mem_map_of_mem _ he
  exact List.mem_map_of_mem _ hmem

theorem aggQty_eq_zero_of_not_pair {evs : List PurchaseEvent} {u p : Nat}
    (h : (u, p) ∉ evs.map (fun e => (e.userId, e.productId))) : aggQty evs u p = 0 := by
  unfold aggQty
  have : evs.filter (fun e => e.userId == u && e.productId == p) = [] := by
    rw [List.filter_eq_nil_iff]
    intro e he hpred
    simp only [Bool.and_eq_true, beq_iff_eq] at hpred
    exact h (by
      rw [show (u, p) = (e.userId, e.productId) by rw [hpred.1, hpred.2]]
      exact List.mem_map_of_mem _ he)
  rw [this]
  rfl

theorem filter_pair_eq {l : List (Nat × Nat)} (hN : l.Nodup) (u p : Nat) :
    l.filter (fun pr => pr.1 == u && pr.2 == p)
      = if (u, p) ∈ l then [(u, p)] else [] := by
  induction l with
  | nil => simp
  | cons a t ih =>
    have hN' : t.Nodup := hN.of_cons
    rw [List.filter_cons]
    by_cases ha : a = (u, p)
    · have hnt : a ∉ t := (List.nodup_cons.mp hN).1
      have hcond : (a.1 == u && a.2 == p) = true := by rw [ha]; simp
      have hmem : (u, p) ∈ a :: t := ha ▸ List.mem_cons_self a t
      rw [if_pos hcond, if_pos hmem]
      have hfil : t.filter (fun pr => pr.1 == u && pr.2 == p) = [] := by
        rw [List.filter_eq_nil_iff]
        intro x hx hpred
        simp only [Bool.and_eq_true, beq_iff_eq] at hpred
        have hxa : x = a := by rw [ha]; exact Prod.ext hpred.1 hpred.2
        exact hnt (hxa ▸ hx)
      rw [hfil, ha]
    · have hcond : ¬ ((a.1 == u && a.2 == p) = true) := by
        simp only [Bool.and_eq_true, beq_iff_eq]
        intro hc
        exact ha (Prod.ext hc.1 hc.2)
      rw [if_neg hcond, ih hN']
      by_cases hm : (u, p) ∈ t
      · rw [if_pos hm, if_pos (List.mem_cons_of_mem a hm)]
      · rw [if_neg hm, if_neg (by
          intro hc
          rcases List.mem_cons.mp hc with hc | hc
          · exact ha hc.symm
          · exact hm hc)]

theorem rowQty_aggPairs (evs : List PurchaseEvent) (u p : Nat) :
    rowQty (aggPairs evs) u p = aggQty evs u p := by
  unfold rowQty aggPairs
  rw [List.filter_map]
  have hcomp : ((fun r : AggRow => r.userId == u && r.productId == p) ∘
      (fun pr : Nat × Nat => (⟨pr.1, pr.2, aggQty evs pr.1 pr.2⟩ : AggRow)))
      = (fun pr : Nat × Nat => pr.1 == u && pr.2 == p) := rfl
  rw [hcomp, filter_pair_eq (List.nodup_dedup _) u p]
  by_cases hm : (u, p) ∈ (evs.map (fun e => (e.userId, e.productId))).dedup
  · rw [if_pos hm]
    simp
  · rw [if_neg hm]
    rw [List.mem_dedup] at hm
    rw [aggQty_eq_zero_of_not_pair hm]
    rfl

theorem not_purchased_of_mem_collabRecIds {rows : List AggRow} {sim : Nat → Nat → ℚ}
    {u limit pid : Nat} (h : pid ∈ collabRecIdsR rows sim u limit) :
    ¬ (0 < rowQty rows u pid) := by
  unfold collabRecIdsR at h
  have hs : (maskedScoreR rows sim u pid).isSome = true := (List.mem_filter.mp h).2
  unfold maskedScoreR at hs
  by_cases hq : 0 < rowQty rows u pid
  · rw [if_pos hq] at hs
    simp at hs
  · exact hq

/-! ## Claim C4: no repurchase recommendation -/

/-- Counterexample to claim C4 as stated: buyer 5 purchased the only catalog
product, so every CF candidate is masked to negative infinity and the ranked
id list is empty; the source then deliberately falls back to the popularity
ranking, which returns the very product the buyer already purchased. -/
theorem claim_C4_counterexample :
    getCollaborativeRecommendations exDb4 zeroSim 5 1 = [exQ1] ∧
    (0 : ℚ) < aggQty exDb4.purchases 5 exQ1.id :=
  ⟨by decide, by decide⟩

/-- Claim C4 (amended): whenever at least one finite-score candidate
survives the top-limit selection (the ranked id list is nonempty), the list
returned by `get_collaborative_recommendations` contains no product the
buyer already purchased — every purchased item is masked to negative
infinity and filtered out before hydration.  When no candidate survives,
the popularity fallback is returned and may repeat purchased products. -/
theorem claim_C4 (db : Db) (sim : Nat → Nat → ℚ) (u limit : Nat)
    (hne : collabRecIdsR (aggPairs db.purchases) sim u limit ≠ []) :
    ∀ p ∈ getCollaborativeRecommendations db sim u limit,
      ¬ (0 < aggQty db.purchases u p.id) := by
  intro p hp
  by_cases h1 : (aggPairs db.purchases).isEmpty = true
  · have hevs : db.purchases = [] := aggPairs_eq_nil (List.isEmpty_iff.mp h1)
    rw [hevs, show aggQty [] u p.id = 0 from rfl]
    exact lt_irrefl 0
  · by_cases h2 : userInR (aggPairs db.purchases) u = true
    · have h3 : (collabRecIdsR (aggPairs db.purchases) sim u limit).isEmpty = false :=
        List.isEmpty_eq_false.mpr hne
      have hp' : p ∈ fetchProductsByIds db (collabRecIdsR (aggPairs db.purchases) sim u limit) := by
        unfold getCollaborativeRecommendations at hp
        rw [if_neg h1, h2] at hp
        simp only [Bool.not_true, Bool.false_eq_true, if_false, h3] at hp
        exact hp
      have hid : p.id ∈ collabRecIdsR (aggPairs db.purchases) sim u limit := by
        unfold fetchProductsByIds at hp'
        exact of_decide_eq_true (List.mem_filter.mp hp').2
      have := not_purchased_of_mem_collabRecIds hid
      rw [rowQty_aggPairs] at this
      exact this
    · have hu : ∀ e ∈ db.purchases, e.userId ≠ u := no_user_events_of_userInR_ne h2
      rw [aggQty_eq_zero_of_no_user hu p.id]
      exact lt_irrefl 0

/-- Witness for C4 at a concrete instance: buyer 10 of the hydration
scenario store, whose ranked id list [2, 1] is nonempty; the returned
products carry ids 1 and 2, neither of which buyer 10 purchased. -/
theorem claim_C4_witness :
    collabRecIdsR (aggPairs exDb9.purchases) exSim9 10 2 ≠ [] ∧
    ∀ p ∈ getCollaborativeRecommendations exDb9 exSim9 10 2,
      ¬ (0 < aggQty exDb9.purchases 10 p.id) :=
  ⟨by decide, claim_C4 exDb9 exSim9 10 2 (by decide)⟩

/-! ## Lemmas about the CBF ranking and hydration (claim C7) -/

theorem cbfTopIdsRows_not_anchor {rows : List Product} {tsim : Nat → Nat → ℚ}
    {pid limit : Nat} : ∀ x ∈ cbfTopIdsRows rows tsim pid limit, x ≠ pid := by
  intro x hx
  unfold cbfTopIdsRows at hx
  by_cases h : rows.any (fun p => p.id == pid) = true
  · rw [if_pos h] at hx
    obtain ⟨q, hq, rfl⟩ := List.mem_map.mp hx
    have hq1 : q ∈ (rows.filter (fun p => p.id ≠ pid)).insertionSort (cbfDesc tsim pid) :=
      (List.take_sublist _ _).subset hq
    have hq2 : q ∈ rows.filter (fun p => p.id ≠ pid) :=
      (List.perm_insertionSort _ _).subset hq1
    exact of_decide_eq_true (List.mem_filter.mp hq2).2
  · rw [if_neg h] at hx
    exact absurd hx (List.not_mem_nil x)

theorem cbfTopIdsRows_length {rows : List Product} {tsim : Nat → Nat → ℚ}
    {pid limit : Nat} : (cbfTopIdsRows rows tsim pid limit).length ≤ limit := by
  unfold cbfTopIdsRows
  by_cases h : rows.any (fun p => p.id == pid) = true
  · rw [if_pos h, List.length_map, List.length_take]
    exact min_le_left _ _
  · rw [if_neg h]
    exact Nat.zero_le _

theorem cbfTopIdsRows_nodup {rows : List Product} {tsim : Nat → Nat → ℚ}
    {pid limit : Nat} (hN : (rows.map (fun p => p.id)).Nodup) :
    (cbfTopIdsRows rows tsim pid limit).Nodup := by
  unfold cbfTopIdsRows
  by_cases h : rows.any (fun p => p.id == pid) = true
  · rw [if_pos h, List.map_take]
    have hcand : ((rows.filter (fun p => p.id ≠ pid)).map (fun p => p.id)).Nodup :=
      List.Nodup.sublist (List.Sublist.map _ (List.filter_sublist _)) hN
    have hsorted : (((rows.filter (fun p => p.id ≠ pid)).insertionSort
        (cbfDesc tsim pid)).map (fun p => p.id)).Nodup :=
      ((List.perm_insertionSort _ _).map (fun p : Product => p.id)).nodup_iff.mpr hcand
    exact List.Nodup.sublist (List.take_sublist _ _) hsorted
  · rw [if_neg h]
    exact List.nodup_nil

theorem id_mem_of_mem_fetch {db : Db} {ids : List Nat} {p : Product}
    (hp : p ∈ fetchProductsByIds db ids) : p.id ∈ ids :=
  of_decide_eq_true (List.mem_filter.mp hp).2

theorem fetch_length_le {db : Db} {ids : List Nat}
    (hN : (db.products.map (fun p => p.id)).Nodup) :
    (fetchProductsByIds db ids).length ≤ ids.length := by
  have h1 : ((fetchProductsByIds db ids).map (fun p => p.id)).Nodup :=
    List.Nodup.sublist (List.Sublist.map _ (List.filter_sublist _)) hN
  have h2 : ((fetchProductsByIds db ids).map (fun p => p.id)) ⊆ ids := by
    intro x hx
    obtain ⟨p, hp, rfl⟩ := List.mem_map.mp hx
    exact id_mem_of_mem_fetch hp
  calc (fetchProductsByIds db ids).length
      = ((fetchProductsByIds db ids).map (fun p => p.id)).length :=
        (List.length_map _ _).symm
    _ ≤ ids.length := (List.subperm_of_subset h1 h2).length_le

/-! ## Claim C7: the CBF ranker never returns the anchor and respects the
limit -/

/-- Claim C7: for every anchor id (in particular every active product) and
every limit, `get_content_based_recommendations` never returns a record
carrying the anchor's id and returns at most `limit` records.  The product
table is assumed free of duplicate ids (its primary key). -/
theorem claim_C7 (db : Db) (tsim : Nat → Nat → ℚ) (pid limit : Nat)
    (hN : (db.products.map (fun p => p.id)).Nodup) :
    (∀ q ∈ getContentBasedRecommendations db tsim pid limit, q.id ≠ pid) ∧
    (getContentBasedRecommendations db tsim pid limit).length ≤ limit := by
  unfold getContentBasedRecommendations
  by_cases h : (cbfTopIds db tsim pid limit).isEmpty = true
  · rw [if_pos h]
    exact ⟨fun q hq => absurd hq (List.not_mem_nil q), Nat.zero_le _⟩
  · rw [if_neg h]
    constructor
    · intro q hq
      exact cbfTopIdsRows_not_anchor q.id (id_mem_of_mem_fetch hq)
    · exact le_trans (fetch_length_le hN) cbfTopIdsRows_length

/-- Witness for C7 at a concrete instance: anchor product 1 of the CBF tie
store, limit 1. -/
theorem claim_C7_witness :
    (∀ q ∈ getContentBasedRecommendations exDb8 exTsim8 1 1, q.id ≠ 1) ∧
    (getContentBasedRecommendations exDb8 exTsim8 1 1).length ≤ 1 :=
  claim_C7 exDb8 exTsim8 1 1 (by decide)

/-! ## Claim C5: cold start degrades to the popularity ranking -/

/-- Claim C5: with zero purchase events, or a buyer absent from the
interaction matrix, `get_collaborative_recommendations` returns exactly the
popularity ranking — the active products ordered by total purchase count
descending with catalog recency as tiebreak — truncated to `limit`. -/
theorem claim_C5 (db : Db) (sim : Nat → Nat → ℚ) (u limit : Nat)
    (h : db.purchases = [] ∨ userInR (aggPairs db.purchases) u = false) :
    getCollaborativeRecommendations db sim u limit = getPopularProducts db limit ∧
    List.Sorted (popLe db) (getPopularProducts db limit) ∧
    (getPopularProducts db limit).length = min limit (activeProducts db).length ∧
    (∀ p ∈ getPopularProducts db limit, p ∈ activeProducts db) := by
  refine ⟨?_, ?_, ?_, ?_⟩
  · rcases h with h | h
    · unfold getCollaborativeRecommendations
      rw [h]
      rfl
    · unfold getCollaborativeRecommendations
      by_cases h1 : (aggPairs db.purchases).isEmpty = true
      · rw [if_pos h1]
      · rw [if_neg h1, h]
        simp
  · exact List.Pairwise.sublist (List.take_sublist _ _) (List.sorted_insertionSort _ _)
  · unfold getPopularProducts
    rw [List.length_take, List.length_insertionSort]
  · intro p hp
    unfold getPopularProducts at hp
    exact (List.perm_insertionSort _ _).subset ((List.take_sublist _ _).subset hp)

/-- Witness for C5 at a concrete instance: a store with an empty purchase
history and three active products. -/
theorem claim_C5_witness :
    getCollaborativeRecommendations exDb8 zeroSim 7 2 = getPopularProducts exDb8 2 ∧
    List.Sorted (popLe exDb8) (getPopularProducts exDb8 2) ∧
    (getPopularProducts exDb8 2).length = min 2 (activeProducts exDb8).length ∧
    (∀ p ∈ getPopularProducts exDb8 2, p ∈ activeProducts exDb8) :=
  claim_C5 exDb8 zeroSim 7 2 (Or.inl rfl)

/-! ## Claim C8: similarity ranking, tie order and determinism

The corpus query has no ORDER BY, so the dataframe row order — which is what
`nlargest(keep = first)` breaks ties by — is whatever order the store
returns.  The two sorts agree exactly when the rows arrive in ascending
catalog-id order. -/

theorem orderedInsert_congr {r1 r2 : Product → Product → Prop}
    [DecidableRel r1] [DecidableRel r2] (a : Product) (s : List Product)
    (hagree : ∀ x ∈ s, r1 a x ↔ r2 a x) :
    List.orderedInsert r1 a s = List.orderedInsert r2 a s := by
  induction s with
  | nil => rfl
  | cons b t ih =>
    by_cases h : r1 a b
    · rw [List.orderedInsert, if_pos h, List.orderedInsert,
        if_pos ((hagree b (List.mem_cons_self b t)).mp h)]
    · rw [List.orderedInsert, if_neg h, List.orderedInsert,
        if_neg (fun h2 => h ((hagree b (List.mem_cons_self b t)).mpr h2)),
        ih (fun x hx => hagree x (List.mem_cons_of_mem b hx))]

theorem insertionSort_cbfDesc_eq_cbfLex (tsim : Nat → Nat → ℚ) (pid : Nat)
    (l : List Product) (hl : l.Pairwise (fun a b => a.id < b.id)) :
    List.insertionSort (cbfDesc tsim pid) l = List.insertionSort (cbfLex tsim pid) l := by
  induction l with
  | nil => rfl
  | cons a t ih =>
    have ht : t.Pairwise (fun a b => a.id < b.id) := (List.pairwise_cons.mp hl).2
    have hhead : ∀ x ∈ t, a.id < x.id := (List.pairwise_cons.mp hl).1
    rw [List.insertionSort, List.insertionSort, ih ht]
    apply orderedInsert_congr
    intro x hx
    have hid : a.id < x.id := hhead x ((List.perm_insertionSort _ t).subset hx)
    unfold cbfDesc cbfLex
    constructor
    · intro hle
      rcases lt_or_eq_of_le hle with hlt | heq
      · exact Or.inl hlt
      · exact Or.inr ⟨heq.symm, le_of_lt hid⟩
    · intro hlex
      rcases hlex with hlt | ⟨heq, _⟩
      · exact le_of_lt hlt
      · exact le_of_eq heq.symm

/-- Counterexample to claim C8 as stated: with the store returning the rows
for ids 3 and 2 in that (non-ascending) order and the two candidates tied in
similarity to anchor 1, the source returns [3] — ties are broken by row
position in the unordered query result, not by catalog id ascending, which
would give [2]. -/
theorem claim_C8_counterexample :
    cbfTopIds exDb8 exTsim8 1 1 = [3] ∧
    cbfTopIdsSpec exDb8 exTsim8 1 1 = [2] ∧
    cbfTopIds exDb8 exTsim8 1 1 ≠ cbfTopIdsSpec exDb8 exTsim8 1 1 :=
  ⟨by decide, by decide, by decide⟩

/-- Claim C8 (amended): provided the corpus rows arrive in ascending
catalog-id order (SQLite's scan order for this table, though no ORDER BY
requests it), the ranked ids of `get_content_based_recommendations` are
exactly the `limit` highest-similarity ids with ties broken by catalog id
ascending — the deterministic ranking the specification describes.  With any
other row order, ties are broken by row position instead. -/
theorem claim_C8 (db : Db) (tsim : Nat → Nat → ℚ) (pid limit : Nat)
    (hAsc : (activeProducts db).Pairwise (fun a b => a.id < b.id)) :
    cbfTopIds db tsim pid limit = cbfTopIdsSpec db tsim pid limit := by
  unfold cbfTopIds cbfTopIdsSpec cbfTopIdsRows cbfTopIdsSpecRows
  by_cases h : (activeProducts db).any (fun p => p.id == pid) = true
  · rw [if_pos h, if_pos h,
      insertionSort_cbfDesc_eq_cbfLex tsim pid _ (List.Pairwise.filter _ hAsc)]
  · rw [if_neg h, if_neg h]

/-- Witness for C8 at a concrete instance: the same catalog rows in
ascending-id order; the code ranking and the spec ranking coincide. -/
theorem claim_C8_witness :
    cbfTopIds exDb8w exTsim8 1 2 = cbfTopIdsSpec exDb8w exTsim8 1 2 :=
  claim_C8 exDb8w exTsim8 1 2 (by decide)

/-! ## Dictionary lemmas for the hybrid blend (claim C1) -/

theorem nlookup_cfRank_aux (len : ℚ) (l : List Product) :
    ∀ (n k : Nat),
      nlookup k ((l.enumFrom n).map
          (fun e => (e.2.id, (len - (e.1 : ℚ)) / max 1 len)))
        = if k ∈ l.map (fun p => p.id)
          then some ((len - (((n + (l.map (fun p => p.id)).indexOf k : Nat)) : ℚ)) / max 1 len)
          else none := by
  induction l with
  | nil => intro n k; simp [nlookup]
  | cons a t ih =>
    intro n k
    rw [List.enumFrom_cons, List.map_cons, List.map_cons]
    by_cases hk : a.id = k
    · simp only [nlookup, if_pos hk]
      rw [if_pos (hk ▸ List.mem_cons_self a.id (t.map (fun p => p.id)))]
      have hidx : (a.id :: t.map (fun p => p.id)).indexOf k = 0 := by
        rw [← hk]
        exact List.indexOf_cons_self _ _
      rw [hidx]
      norm_num
    · simp only [nlookup, if_neg hk]
      rw [ih (n + 1) k]
      by_cases hm : k ∈ t.map (fun p => p.id)
      · rw [if_pos hm, if_pos (List.mem_cons_of_mem _ hm)]
        have hidx : (a.id :: t.map (fun p => p.id)).indexOf k
            = ((t.map (fun p => p.id)).indexOf k).succ :=
          List.indexOf_cons_ne _ hk
        rw [hidx]
        have harith : n + 1 + (t.map (fun p => p.id)).indexOf k
            = n + ((t.map (fun p => p.id)).indexOf k).succ := by omega
        rw [harith]
      · rw [if_neg hm, if_neg (by
          intro hc
          rcases List.mem_cons.mp hc with hc | hc
          · exact hk hc.symm
          · exact hm hc)]

theorem lookupD_cfRankList (cfList : List Product) (pid : Nat) :
    lookupD (cfRankList cfList) pid
      = if pid ∈ cfList.map (fun p => p.id)
        then ((cfList.length : ℚ) - (((cfList.map (fun p => p.id)).indexOf pid : Nat) : ℚ))
              / max 1 (cfList.length : ℚ)
        else 0 := by
  unfold lookupD cfRankList
  rw [List.enum_eq_enumFrom, nlookup_cfRank_aux ((cfList.length : ℚ)) cfList 0 pid]
  by_cases hm : pid ∈ cfList.map (fun p => p.id)
  · rw [if_pos hm, if_pos hm]
    simp
  · rw [if_neg hm, if_neg hm]
    rfl

theorem nlookup_append_of_none {k : Nat} {l1 : List (Nat × ℚ)}
    (h : nlookup k l1 = none) (l2 : List (Nat × ℚ)) :
    nlookup k (l1 ++ l2) = nlookup k l2 := by
  induction l1 with
  | nil => rfl
  | cons e t ih =>
    rw [List.cons_append]
    rw [nlookup] at h ⊢
    by_cases he : e.1 = k
    · rw [if_pos he] at h
      exact absurd h (by simp)
    · rw [if_neg he] at h ⊢
      exact ih h

theorem nlookup_append_of_some {k : Nat} {l1 : List (Nat × ℚ)} {v : ℚ}
    (h : nlookup k l1 = some v) (l2 : List (Nat × ℚ)) :
    nlookup k (l1 ++ l2) = some v := by
  induction l1 with
  | nil => exact absurd h (by simp [nlookup])
  | cons e t ih =>
    rw [List.cons_append]
    rw [nlookup] at h ⊢
    by_cases he : e.1 = k
    · rw [if_pos he] at h ⊢
      exact h
    · rw [if_neg he] at h ⊢
      exact ih h

theorem nlookup_mapUpd (k' : Nat) (w : ℚ) (acc : List (Nat × ℚ)) (k : Nat) :
    nlookup k (acc.map (fun e => if e.1 = k' then (e.1, w) else e))
      = if k = k' then (nlookup k acc).map (fun _ => w) else nlookup k acc := by
  induction acc with
  | nil => simp [nlookup]
  | cons e t ih =>
    rw [List.map_cons]
    by_cases he : e.1 = k'
    · rw [if_pos he]
      by_cases hek : e.1 = k
      · have hkk : k = k' := hek ▸ he
        rw [nlookup, if_pos hek, if_pos hkk, nlookup, if_pos hek]
        rfl
      · rw [nlookup, if_neg hek, ih, nlookup, if_neg hek]
    · rw [if_neg he]
      by_cases hek : e.1 = k
      · have hkk : ¬ (k = k') := fun h => he (hek.trans h)
        rw [nlookup, if_pos hek, if_neg hkk, nlookup, if_pos hek]
      · rw [nlookup, if_neg hek, ih, nlookup, if_neg hek]

theorem lookupD_updMax (acc : List (Nat × ℚ)) (k' : Nat) (v : ℚ) (k : Nat) :
    lookupD (updMax acc k' v) k
      = if k' = k then max (lookupD acc k) v else lookupD acc k := by
  unfold updMax
  cases hl : nlookup k' acc with
  | some old =>
    unfold lookupD
    rw [nlookup_mapUpd]
    by_cases hk : k = k'
    · rw [if_pos hk, if_pos hk.symm]
      rw [hk, hl]
      rfl
    · rw [if_neg hk, if_neg (fun h => hk h.symm)]
  | none =>
    unfold lookupD
    by_cases hk : k = k'
    · rw [if_pos hk.symm, hk, nlookup_append_of_none hl, hl]
      rw [nlookup, if_pos rfl]
      rfl
    · rw [if_neg (fun h => hk h.symm)]
      cases h2 : nlookup k acc with
      | none =>
        rw [nlookup_append_of_none h2, nlookup, if_neg (fun h => hk h.symm)]
        rfl
      | some w =>
        rw [nlookup_append_of_some h2]

theorem lookupD_inner_fold (ids : List Nat) :
    ∀ (n : Nat) (acc : List (Nat × ℚ)) (k : Nat),
      lookupD ((ids.enumFrom n).foldl
          (fun acc2 e => updMax acc2 e.2 ((50 - (e.1 : ℚ)) / 50)) acc) k
        = ((ids.enumFrom n).filterMap
            (fun e => if e.2 = k then some ((50 - (e.1 : ℚ)) / 50) else none)).foldl
            max (lookupD acc k) := by
  induction ids with
  | nil => intro n acc k; rfl
  | cons a t ih =>
    intro n acc k
    rw [List.enumFrom_cons, List.foldl_cons, ih]
    by_cases ha : a = k
    · have hfm : ((n, a) :: t.enumFrom (n + 1)).filterMap
          (fun e => if e.2 = k then some ((50 - (e.1 : ℚ)) / 50) else none)
          = ((50 - (n : ℚ)) / 50) :: (t.enumFrom (n + 1)).filterMap
              (fun e => if e.2 = k then some ((50 - (e.1 : ℚ)) / 50) else none) := by
        rw [List.filterMap_cons]
        simp [ha]
      rw [hfm, List.foldl_cons, lookupD_updMax, if_pos ha]
    · have hfm : ((n, a) :: t.enumFrom (n + 1)).filterMap
          (fun e => if e.2 = k then some ((50 - (e.1 : ℚ)) / 50) else none)
          = (t.enumFrom (n + 1)).filterMap
              (fun e => if e.2 = k then some ((50 - (e.1 : ℚ)) / 50) else none) := by
        rw [List.filterMap_cons]
        simp [ha]
      rw [hfm, lookupD_updMax, if_neg ha]

theorem lookupD_outer_fold (seedLists : List (List Nat)) :
    ∀ (acc : List (Nat × ℚ)) (k : Nat),
      lookupD (seedLists.foldl
          (fun acc ids => (ids.enum).foldl
            (fun acc2 e => updMax acc2 e.2 ((50 - (e.1 : ℚ)) / 50)) acc) acc) k
        = ((seedLists.map (fun ids => ids.enum.filterMap
              (fun e => if e.2 = k then some ((50 - (e.1 : ℚ)) / 50) else none))).flatten).foldl
            max (lookupD acc k) := by
  induction seedLists with
  | nil => intro acc k; rfl
  | cons ids t ih =>
    intro acc k
    rw [List.foldl_cons, List.map_cons, List.flatten_cons, List.foldl_append, ih]
    congr 1
    rw [List.enum_eq_enumFrom, lookupD_inner_fold]

theorem lookupD_cbfScoresList (seedLists : List (List Nat)) (k : Nat) :
    lookupD (cbfScoresList seedLists) k = specCbfScore seedLists k := by
  unfold cbfScoresList specCbfScore occValues
  rw [lookupD_outer_fold]
  rfl

theorem lookupD_hybridCfRank (db : Db) (sim : Nat → Nat → ℚ) (u pid : Nat) :
    lookupD (hybridCfRank db sim u) pid = specCfScore (hybridCfList db sim u) pid := by
  unfold hybridCfRank specCfScore
  by_cases h : (hybridCfList db sim u).isEmpty = true
  · rw [if_pos h]
    have hnil : hybridCfList db sim u = [] := List.isEmpty_iff.mp h
    rw [hnil]
    simp [lookupD, nlookup]
  · rw [if_neg h, lookupD_cfRankList]
    by_cases hm : pid ∈ (hybridCfList db sim u).map (fun p => p.id)
    · rw [if_pos hm]
      have hlen : 1 ≤ (hybridCfList db sim u).length := by
        cases hL : hybridCfList db sim u with
        | nil => exact absurd (by rw [hL]; rfl) h
        | cons x xs => simp
      have hmax : max 1 ((hybridCfList db sim u).length : ℚ)
          = ((hybridCfList db sim u).length : ℚ) :=
        max_eq_right (by exact_mod_cast hlen)
      rw [hmax]
      simp only [if_pos hm]
    · rw [if_neg hm]
      simp only [if_neg hm]

/-! ## Claim C1: the hybrid blend computes the specified ranking -/

theorem rankedCore_props (cfR cbfS : List (Nat × ℚ)) (alpha : ℚ) (limit : Nat)
    (enum : List Nat) (hnd : enum.Nodup) (B : Nat → ℚ)
    (hB : ∀ pid, alpha * lookupD cfR pid + (1 - alpha) * lookupD cbfS pid = B pid) :
    (∀ pid ∈ hybridRankedIdsCore cfR cbfS alpha limit enum, pid ∈ enum) ∧
    (hybridRankedIdsCore cfR cbfS alpha limit enum).Nodup ∧
    (hybridRankedIdsCore cfR cbfS alpha limit enum).length = min limit enum.length ∧
    (hybridRankedIdsCore cfR cbfS alpha limit enum).Pairwise (fun p q => B q ≤ B p) ∧
    (∀ p ∈ enum, p ∉ hybridRankedIdsCore cfR cbfS alpha limit enum →
      ∀ q ∈ hybridRankedIdsCore cfR cbfS alpha limit enum, B p ≤ B q) := by
  set f : Nat → Nat × ℚ := fun pid =>
    (pid, alpha * lookupD cfR pid + (1 - alpha) * lookupD cbfS pid) with hf
  have hcore : hybridRankedIdsCore cfR cbfS alpha limit enum
      = (((enum.map f).insertionSort blendLe).take limit).map (fun e => e.1) := rfl
  set P : List (Nat × ℚ) := enum.map f with hP
  set S : List (Nat × ℚ) := P.insertionSort blendLe with hSdef
  have hperm : S.Perm P := List.perm_insertionSort _ _
  have hsorted : List.Pairwise blendLe S := List.sorted_insertionSort blendLe P
  have hsnd : ∀ e ∈ S, e.2 = B e.1 := by
    intro e he
    obtain ⟨pid, _hpid, rfl⟩ := List.mem_map.mp (hperm.subset he)
    exact hB pid
  have hPfst : P.map (fun e => e.1) = enum := by
    rw [hP, List.map_map]
    exact List.map_id enum
  refine ⟨?_, ?_, ?_, ?_, ?_⟩
  · intro pid hpid
    rw [hcore] at hpid
    obtain ⟨e, he, rfl⟩ := List.mem_map.mp hpid
    have heS : e ∈ S := (List.take_sublist _ _).subset he
    obtain ⟨x, hx, rfl⟩ := List.mem_map.mp (hperm.subset heS)
    exact hx
  · rw [hcore, List.map_take]
    apply List.Nodup.sublist (List.take_sublist _ _)
    exact ((hperm.map (fun e : Nat × ℚ => e.1)).nodup_iff).mpr (hPfst.symm ▸ hnd)
  · rw [hcore, List.length_map, List.length_take, List.length_insertionSort,
      List.length_map]
  · rw [hcore, List.pairwise_map]
    have htake : List.Pairwise blendLe (S.take limit) :=
      List.Pairwise.sublist (List.take_sublist _ _) hsorted
    apply htake.imp_of_mem
    intro a b ha hb hr
    have haS : a ∈ S := (List.take_sublist _ _).subset ha
    have hbS : b ∈ S := (List.take_sublist _ _).subset hb
    rw [← hsnd a haS, ← hsnd b hbS]
    exact hr
  · intro p hp hpnot q hq
    rw [hcore] at hpnot hq
    obtain ⟨eq, heq, rfl⟩ := List.mem_map.mp hq
    have hpS : (f p) ∈ S := hperm.mem_iff.mpr (List.mem_map_of_mem f hp)
    have hsplit : S.take limit ++ S.drop limit = S := List.take_append_drop limit S
    have hpw : List.Pairwise blendLe (S.take limit ++ S.drop limit) := by
      rw [hsplit]
      exact hsorted
    obtain ⟨_, _, hcross⟩ := List.pairwise_append.mp hpw
    have hpTD : (f p) ∈ S.take limit ++ S.drop limit := by
      rw [hsplit]
      exact hpS
    have hpdrop : (f p) ∈ S.drop limit := by
      rcases List.mem_append.mp hpTD with h | h
      · exact absurd (List.mem_map_of_mem (fun e : Nat × ℚ => e.1) h) hpnot
      · exact h
    have hrel : blendLe eq (f p) := hcross eq heq (f p) hpdrop
    have h1 : (f p).2 = B p := hB p
    have h2 : eq.2 = B eq.1 := hsnd eq ((List.take_sublist _ _).subset heq)
    rw [← h1, ← h2]
    exact hrel

/-- Claim C1: the hybrid ranker computes its ranking by the specified blend.
For every union candidate the blended score is `alpha * cf_score +
(1 - alpha) * cbf_score` with missing scores treated as 0, where the CF
score is `(N - rank_index) / N` over the up-to-50 collaborative candidates
and the CBF score is the maximum over seeds of `(50 - rank_index) / 50`;
the ranking lists distinct union candidates sorted descending by that
blended score, truncated to `limit`, and an empty union falls back to the
popularity ranking. -/
theorem claim_C1 (db : Db) (sim tsim : Nat → Nat → ℚ) (u limit : Nat) (alpha : ℚ)
    (enum : List Nat)
    (_hlim1 : 1 ≤ limit) (_hlim50 : limit ≤ 50) (_ha0 : 0 ≤ alpha) (_ha1 : alpha ≤ 1)
    (henum : enumeratesUnion db sim tsim u enum) :
    (∀ pid ∈ hybridRecIds db sim tsim u limit alpha enum, pid ∈ enum) ∧
    (hybridRecIds db sim tsim u limit alpha enum).Nodup ∧
    (hybridRecIds db sim tsim u limit alpha enum).length = min limit enum.length ∧
    (hybridRecIds db sim tsim u limit alpha enum).Pairwise
      (fun p q => specBlendedScore db sim tsim u alpha q
        ≤ specBlendedScore db sim tsim u alpha p) ∧
    (∀ p ∈ enum, p ∉ hybridRecIds db sim tsim u limit alpha enum →
      ∀ q ∈ hybridRecIds db sim tsim u limit alpha enum,
        specBlendedScore db sim tsim u alpha p ≤ specBlendedScore db sim tsim u alpha q) ∧
    (enum = [] →
      getHybridRecommendations db sim tsim u limit alpha enum
        = getPopularProducts db limit) := by
  obtain ⟨hnd, _hsub, _hcf, _hcbf⟩ := henum
  have hBs : ∀ pid : Nat,
      alpha * lookupD (hybridCfRank db sim u) pid
        + (1 - alpha) * lookupD (hybridCbfScores db tsim u) pid
      = specBlendedScore db sim tsim u alpha pid := by
    intro pid
    unfold specBlendedScore
    rw [lookupD_hybridCfRank]
    unfold hybridCbfScores
    rw [lookupD_cbfScoresList]
  have main := rankedCore_props (hybridCfRank db sim u) (hybridCbfScores db tsim u)
    alpha limit enum hnd (specBlendedScore db sim tsim u alpha) hBs
  exact ⟨main.1, main.2.1, main.2.2.1, main.2.2.2.1, main.2.2.2.2, by
    intro h
    subst h
    have hnil : hybridRecIds db sim tsim u limit alpha [] = [] := by
      unfold hybridRecIds hybridRankedIdsCore
      simp
    unfold getHybridRecommendations
    rw [hnil]
    rfl⟩

/-- Witness for C1 at a concrete instance: buyer 5 of the single-product
store, limit 1, alpha one half, union enumeration [1]. -/
theorem claim_C1_witness :
    (∀ pid ∈ hybridRecIds exDb4 zeroSim zeroSim 5 1 (1 / 2) [1], pid ∈ [1]) ∧
    (hybridRecIds exDb4 zeroSim zeroSim 5 1 (1 / 2) [1]).Nodup ∧
    (hybridRecIds exDb4 zeroSim zeroSim 5 1 (1 / 2) [1]).length = min 1 ([1] : List Nat).length ∧
    (hybridRecIds exDb4 zeroSim zeroSim 5 1 (1 / 2) [1]).Pairwise
      (fun p q => specBlendedScore exDb4 zeroSim zeroSim 5 (1 / 2) q
        ≤ specBlendedScore exDb4 zeroSim zeroSim 5 (1 / 2) p) ∧
    (∀ p ∈ ([1] : List Nat), p ∉ hybridRecIds exDb4 zeroSim zeroSim 5 1 (1 / 2) [1] →
      ∀ q ∈ hybridRecIds exDb4 zeroSim zeroSim 5 1 (1 / 2) [1],
        specBlendedScore exDb4 zeroSim zeroSim 5 (1 / 2) p
          ≤ specBlendedScore exDb4 zeroSim zeroSim 5 (1 / 2) q) ∧
    (([1] : List Nat) = [] →
      getHybridRecommendations exDb4 zeroSim zeroSim 5 1 (1 / 2) [1]
        = getPopularProducts exDb4 1) :=
  claim_C1 exDb4 zeroSim zeroSim 5 1 (1 / 2) [1] (by decide) (by decide) (by decide)
    (by decide) ⟨by decide, by decide, by decide, by decide⟩

end Qwipo
